import Mathlib

/-!
Verification development for the GatherMate2 data miner
(`generate_data.py`).

The Python source is shallowly embedded as follows.

* Python `float` coordinate values are modelled as `ℚ` with exact
  arithmetic; Python `int` is modelled as `ℤ`.
* The dataclasses `Zone`, `Coordinate`, `GathererEntry`,
  `GathererZone`, `Aggregate` become Lean structures.  Dataclass
  equality (`==`, used by `Aggregate.add` both for the zone lookup and
  for the collision check `entry.coordinate in [...]`) is structural
  equality of all fields, which `DecidableEq` mirrors.
* The mutating method `Coordinate.as_gatherer_coord` (which caches the
  encoded key in the field `coord`, using `coord == 0` as the
  "not yet computed" sentinel) is modelled by a function returning the
  updated coordinate together with the returned value.
* The `while` loop of `Aggregate.add` is modelled with explicit fuel
  (`probeLoop`); `none` models a run in which the loop does not
  terminate within the fuel.  The fuel `entries.length + 2` is enough
  for every terminating execution of the Python loop: after the first
  bump the candidate `coord` strictly increases, so the loop body can
  fire at most once per existing entry, plus once for the initial hit.
* Python's `sorted` (a stable sort driven by the `__lt__` methods,
  which compare by the integer zone id and by the coordinate key) is
  modelled by `List.insertionSort`, Mathlib's stable sort, with the
  corresponding total preorders.
-/

/-- The `Zone` dataclass: display name and the internal numeric-string id. -/
structure Zone where
  name : String
  id : String
deriving DecidableEq

/-- The `Coordinate` dataclass: position `x`, `y` and the lazily
computed key cache `coord` (default `0`, which doubles as the
"not computed yet" sentinel). -/
structure Coordinate where
  x : ℚ
  y : ℚ
  coord : ℤ
deriving DecidableEq

/-- The key formula inlined in `Coordinate.as_gatherer_coord`:
`math.floor((x/100)*10000+0.5)*1000000 + math.floor((y/100)*10000+0.5)*100`. -/
def encKey (x y : ℚ) : ℤ :=
  ⌊x / 100 * 10000 + 1 / 2⌋ * 1000000 + ⌊y / 100 * 10000 + 1 / 2⌋ * 100

/-- `Coordinate.as_gatherer_coord`: if the cache field `coord` is `0`
it stores the encoded key there and returns it; otherwise it returns
the stored value.  The first component is the coordinate after the
call (the method mutates `self`), the second the returned value. -/
def Coordinate.as_gatherer_coord (c : Coordinate) : Coordinate × ℤ :=
  if c.coord = 0 then
    (⟨c.x, c.y, encKey c.x c.y⟩, encKey c.x c.y)
  else
    (c, c.coord)

/-- The value returned by reading a coordinate's key
(`as_gatherer_coord`), ignoring the cache update.  Reading is
value-stable — a second read returns the same value as the first — so
serialization code may use this pure form. -/
def keyOf (c : Coordinate) : ℤ :=
  c.as_gatherer_coord.2

/-- Claim C1: for every pair of coordinates, the encoder
`as_gatherer_coord` (on a fresh coordinate, cache `coord = 0`) returns
`floor(x/100*10000 + 0.5)*1000000 + floor(y/100*10000 + 0.5)*100`
(round-half-up on each axis), and in particular
`encode(50, 50) = 5000500000`. -/
theorem as_gatherer_coord_formula (x y : ℚ) :
    (Coordinate.as_gatherer_coord ⟨x, y, 0⟩).2 =
      ⌊x / 100 * 10000 + 1 / 2⌋ * 1000000 + ⌊y / 100 * 10000 + 1 / 2⌋ * 100 ∧
    (Coordinate.as_gatherer_coord ⟨50, 50, 0⟩).2 = 5000500000 := by
  constructor
  · simp [Coordinate.as_gatherer_coord, encKey]
  · simp only [Coordinate.as_gatherer_coord, encKey]
    norm_num

/-- The `GathererEntry` dataclass: a coordinate paired with the
category-specific identifier code (`gathermate_id`). -/
structure GathererEntry where
  coordinate : Coordinate
  entry_id : String
deriving DecidableEq

/-- The `GathererZone` dataclass: a zone bucket holding a zone and its
entry list. -/
structure GathererZone where
  zone : Zone
  entries : List GathererEntry
deriving DecidableEq

/-- The `Aggregate` dataclass: a category label and the zone buckets. -/
structure Aggregate where
  type : String
  zones : List GathererZone
deriving DecidableEq

/-- One execution of the loop body
`entry.coordinate.coord = entry.coordinate.as_gatherer_coord() + 1` of
`Aggregate.add`: the coordinate's `x` and `y` are unchanged and its
`coord` field ends up as the value returned by `as_gatherer_coord`
plus one (the intermediate cache write is overwritten by the
assignment). -/
def bumpCoord (c : Coordinate) : Coordinate :=
  ⟨c.x, c.y, c.as_gatherer_coord.2 + 1⟩

/-- The `while entry.coordinate in [x.coordinate for x in
gatherer_zone.entries]` loop of `Aggregate.add`, with explicit fuel.
Membership is Python `in`, i.e. dataclass equality of the whole
`Coordinate` record (all of `x`, `y`, `coord`).  `none` models an
execution that does not terminate within the fuel. -/
def probeLoop : Nat → Coordinate → List Coordinate → Option Coordinate
  | 0, _, _ => none
  | fuel + 1, c, existing =>
    if c ∈ existing then probeLoop fuel (bumpCoord c) existing
    else some c

/-- `Aggregate.add` on the zone-bucket list: scan for the first bucket
whose zone equals `zone` (dataclass equality); if found, run the
collision loop against that bucket's coordinates and append the entry;
otherwise append a fresh one-entry bucket at the end. -/
def addEntry : List GathererZone → Zone → GathererEntry → Option (List GathererZone)
  | [], zone, entry => some [⟨zone, [entry]⟩]
  | gz :: rest, zone, entry =>
    if gz.zone = zone then
      match probeLoop (gz.entries.length + 2) entry.coordinate
          (gz.entries.map (fun e => e.coordinate)) with
      | none => none
      | some c => some (⟨gz.zone, gz.entries ++ [⟨c, entry.entry_id⟩]⟩ :: rest)
    else
      (addEntry rest zone entry).map (fun zs => gz :: zs)

/-- `Aggregate.add` (the method on the aggregate). -/
def Aggregate.add (a : Aggregate) (zone : Zone) (entry : GathererEntry) :
    Option Aggregate :=
  (addEntry a.zones zone entry).map (fun zs => ⟨a.type, zs⟩)

/-- The loop of `Aggregate.__init__`: a sequence of `add` calls, one
per scraped record, starting from the given aggregate. -/
def addAll : Aggregate → List (Zone × GathererEntry) → Option Aggregate
  | a, [] => some a
  | a, (zone, entry) :: rest =>
    match a.add zone entry with
    | none => none
    | some a' => addAll a' rest

/-- Python `int(...)` on the digit strings used as zone ids
(`GathererZone.__lt__` compares `int(self.zone.id)`). -/
def strToInt (s : String) : ℤ :=
  s.data.foldl (fun acc c => acc * 10 + ((c.toNat : ℤ) - 48)) 0

/-- The order used by `sorted(self.zones)` in `Aggregate.__repr__`
(`GathererZone.__lt__`: numeric comparison of the zone ids). -/
def zoneLe (a b : GathererZone) : Prop :=
  strToInt a.zone.id ≤ strToInt b.zone.id

instance : DecidableRel zoneLe := fun a b => Int.decLe _ _

instance : IsTotal GathererZone zoneLe :=
  ⟨fun a b => Int.le_total (strToInt a.zone.id) (strToInt b.zone.id)⟩

instance : IsTrans GathererZone zoneLe :=
  ⟨fun _ _ _ hab hbc => le_trans hab hbc⟩

/-- The order used by `sorted(self.entries)` in `GathererZone.__repr__`
(`GathererEntry.__lt__`: comparison of the coordinate keys). -/
def entryLe (a b : GathererEntry) : Prop :=
  keyOf a.coordinate ≤ keyOf b.coordinate

instance : DecidableRel entryLe := fun a b => Int.decLe _ _

instance : IsTotal GathererEntry entryLe :=
  ⟨fun a b => Int.le_total (keyOf a.coordinate) (keyOf b.coordinate)⟩

instance : IsTrans GathererEntry entryLe :=
  ⟨fun _ _ _ hab hbc => le_trans hab hbc⟩

/-- `GathererEntry.__repr__`:
two tabs, `[key] = code,` (the coordinate prints as its key). -/
def GathererEntry.reprStr (e : GathererEntry) : String :=
  "\t\t[" ++ toString (keyOf e.coordinate) ++ "] = " ++ e.entry_id ++ ","

/-- `GathererZone.__repr__`: the bucket header, the entries sorted by
key (Python's `sorted` is a stable sort; so is `insertionSort`), and
the closing line. -/
def GathererZone.reprStr (gz : GathererZone) : String :=
  "\t[" ++ gz.zone.id ++ "] = \x7b\n" ++
    String.join ((gz.entries.insertionSort entryLe).map
      (fun e => e.reprStr ++ "\n")) ++
    "\t\x7d,\n"

/-- `Aggregate.__repr__`: header with the category label, zone buckets
sorted by numeric zone id, closing brace. -/
def Aggregate.reprStr (a : Aggregate) : String :=
  "GatherMate2" ++ a.type ++ "DB = \x7b\n" ++
    String.join ((a.zones.insertionSort zoneLe).map
      (fun gz => gz.reprStr)) ++
    "\x7d"

/-! ### Basic facts about reading a coordinate's key -/

/-- The value returned by `as_gatherer_coord`, as a conditional. -/
theorem asG_snd (c : Coordinate) :
    c.as_gatherer_coord.2 = if c.coord = 0 then encKey c.x c.y else c.coord := by
  unfold Coordinate.as_gatherer_coord
  split <;> rfl

/-- `keyOf`, as a conditional. -/
theorem keyOf_eq (c : Coordinate) :
    keyOf c = if c.coord = 0 then encKey c.x c.y else c.coord :=
  asG_snd c

/-- Claim C8: for a coordinate whose key has not been overridden
(cache field still `0`), reading the key twice gives the same value as
reading it once — also in the cache-sentinel case where the encoded
key is `0` — and that value is the encoded key. -/
theorem key_read_stable (c : Coordinate) (h : c.coord = 0) :
    c.as_gatherer_coord.1.as_gatherer_coord.2 = c.as_gatherer_coord.2 ∧
    c.as_gatherer_coord.2 = encKey c.x c.y := by
  by_cases hk : encKey c.x c.y = 0 <;>
    simp [Coordinate.as_gatherer_coord, h, hk]

/-- Witness for the claim-C8 theorem at the sentinel case `x = y = 0`
(encoded key `0`). -/
theorem key_read_stable_witness :
    (⟨0, 0, 0⟩ : Coordinate).coord = 0 ∧
    ((⟨0, 0, 0⟩ : Coordinate).as_gatherer_coord.1.as_gatherer_coord.2 =
        (⟨0, 0, 0⟩ : Coordinate).as_gatherer_coord.2 ∧
      (⟨0, 0, 0⟩ : Coordinate).as_gatherer_coord.2 = encKey 0 0) :=
  ⟨rfl, key_read_stable ⟨0, 0, 0⟩ rfl⟩

/-- Claim C7: a key explicitly overridden by collision resolution (the
bump `coord = as_gatherer_coord() + 1`) is frozen: the override value
is a nonzero key, so every later read returns exactly the stored value
and leaves the coordinate unchanged — the key is never recomputed from
`(x, y)`.  The hypotheses state that the coordinate being bumped is in
a program-reachable state: a nonnegative cached key and a nonnegative
encoded key (coordinates are percentages in `[0, 100]`). -/
theorem overridden_key_frozen (c : Coordinate) (hc : 0 ≤ c.coord)
    (he : 0 ≤ encKey c.x c.y) :
    (bumpCoord c).coord ≠ 0 ∧
    (bumpCoord c).as_gatherer_coord = (bumpCoord c, (bumpCoord c).coord) := by
  have hpos : 0 < (bumpCoord c).coord := by
    show 0 < c.as_gatherer_coord.2 + 1
    rw [asG_snd]
    split <;> omega
  refine ⟨by omega, ?_⟩
  unfold Coordinate.as_gatherer_coord
  rw [if_neg (by omega : ¬ (bumpCoord c).coord = 0)]

/-- Witness for the claim-C7 theorem at the coordinate `(0, 0)` with an
unset cache. -/
theorem overridden_key_frozen_witness :
    ((0 : ℤ) ≤ (⟨0, 0, 0⟩ : Coordinate).coord ∧ 0 ≤ encKey 0 0) ∧
    ((bumpCoord ⟨0, 0, 0⟩).coord ≠ 0 ∧
      (bumpCoord ⟨0, 0, 0⟩).as_gatherer_coord =
        (bumpCoord ⟨0, 0, 0⟩, (bumpCoord ⟨0, 0, 0⟩).coord)) :=
  ⟨⟨by decide, by norm_num [encKey]⟩,
    overridden_key_frozen ⟨0, 0, 0⟩ (by decide) (by norm_num [encKey])⟩

/-! ### Claim C3: the second duplicate gets the next key -/

/-- Claim C3: adding two records with identical `(zone, x, y)` to an
aggregate assigns the second entry the key `encKey x y + 1` — exactly
one greater than the first entry's key, not a recomputed value and not
an equal key.  The hypothesis restricts to nonnegative encoded keys
(coordinates are percentages in `[0, 100]`, so their keys are
nonnegative). -/
theorem second_duplicate_gets_next_key (t : String) (z : Zone) (x y : ℚ)
    (id1 id2 : String) (h : 0 ≤ encKey x y) :
    addAll ⟨t, []⟩ [(z, ⟨⟨x, y, 0⟩, id1⟩), (z, ⟨⟨x, y, 0⟩, id2⟩)] =
      some ⟨t, [⟨z, [⟨⟨x, y, 0⟩, id1⟩, ⟨⟨x, y, encKey x y + 1⟩, id2⟩]⟩]⟩ ∧
    keyOf ⟨x, y, encKey x y + 1⟩ = keyOf ⟨x, y, 0⟩ + 1 := by
  have hne : encKey x y + 1 ≠ 0 := by omega
  constructor
  · simp [addAll, Aggregate.add, addEntry, probeLoop, bumpCoord,
      Coordinate.as_gatherer_coord, Coordinate.mk.injEq, hne]
  · simp [keyOf, Coordinate.as_gatherer_coord, hne]

/-- Witness for the claim-C3 theorem at `(x, y) = (10, 10)`. -/
theorem second_duplicate_gets_next_key_witness :
    (0 ≤ encKey 10 10) ∧
    (addAll ⟨"Herb", []⟩
        [(⟨"Z1", "5"⟩, ⟨⟨10, 10, 0⟩, "A"⟩), (⟨"Z1", "5"⟩, ⟨⟨10, 10, 0⟩, "B"⟩)] =
      some ⟨"Herb", [⟨⟨"Z1", "5"⟩,
        [⟨⟨10, 10, 0⟩, "A"⟩, ⟨⟨10, 10, encKey 10 10 + 1⟩, "B"⟩]⟩]⟩ ∧
      keyOf ⟨10, 10, encKey 10 10 + 1⟩ = keyOf ⟨10, 10, 0⟩ + 1) :=
  ⟨by norm_num [encKey],
    second_duplicate_gets_next_key "Herb" ⟨"Z1", "5"⟩ 10 10 "A" "B"
      (by norm_num [encKey])⟩

/-! ### Claim C9: each add stores the entry in exactly one bucket -/

/-- The total number of entries across all zone buckets. -/
def totalEntries (a : Aggregate) : ℕ :=
  (a.zones.map (fun gz => gz.entries.length)).sum

/-- `addEntry` adds exactly one entry to the bucket list and never
creates an empty bucket. -/
theorem addEntry_count (z : Zone) (e : GathererEntry) :
    ∀ (zs zs' : List GathererZone), addEntry zs z e = some zs' →
      ((zs'.map fun gz => gz.entries.length).sum =
          (zs.map fun gz => gz.entries.length).sum + 1 ∧
        ((∀ gz ∈ zs, gz.entries ≠ []) → ∀ gz ∈ zs', gz.entries ≠ [])) := by
  intro zs
  induction zs with
  | nil =>
    intro zs' h
    simp only [addEntry, Option.some.injEq] at h
    subst h
    simp
  | cons gz rest ih =>
    intro zs' h
    by_cases hz : gz.zone = z
    · rw [addEntry, if_pos hz] at h
      cases hp : probeLoop (gz.entries.length + 2) e.coordinate
          (gz.entries.map fun e => e.coordinate) with
      | none => rw [hp] at h; exact absurd h (by simp)
      | some c =>
        rw [hp] at h
        simp only [Option.some.injEq] at h
        subst h
        constructor
        · simp [List.length_append]
          omega
        · intro hall gz' hmem
          rcases List.mem_cons.mp hmem with hmem | hmem
          · subst hmem; simp
          · exact hall gz' (List.mem_cons_of_mem _ hmem)
    · rw [addEntry, if_neg hz] at h
      cases hrec : addEntry rest z e with
      | none => rw [hrec] at h; exact absurd h (by simp)
      | some zs'' =>
        rw [hrec] at h
        simp only [Option.map_some', Option.some.injEq] at h
        subst h
        obtain ⟨hsum, hne⟩ := ih zs'' hrec
        constructor
        · simp only [List.map_cons, List.sum_cons, hsum]
          omega
        · intro hall gz' hmem
          rcases List.mem_cons.mp hmem with hmem | hmem
          · subst hmem; exact hall _ (List.mem_cons_self _ _)
          · exact hne (fun g hg => hall g (List.mem_cons_of_mem _ hg)) gz' hmem

/-- Claim C9: a successful `add` stores the entry in exactly one zone
bucket — the total entry count grows by exactly one, no entry is
dropped — and if no bucket was empty before the call, none is after
(buckets are only ever created with their first entry). -/
theorem add_grows_by_one (a : Aggregate) (z : Zone) (e : GathererEntry)
    (a' : Aggregate) (h : a.add z e = some a') :
    totalEntries a' = totalEntries a + 1 ∧
    ((∀ gz ∈ a.zones, gz.entries ≠ []) → ∀ gz ∈ a'.zones, gz.entries ≠ []) := by
  unfold Aggregate.add at h
  cases hE : addEntry a.zones z e with
  | none => rw [hE] at h; exact absurd h (by simp)
  | some zs' =>
    rw [hE] at h
    simp only [Option.map_some', Option.some.injEq] at h
    subst h
    exact addEntry_count z e a.zones zs' hE

/-- Witness for the claim-C9 theorem: a single add into an empty
aggregate. -/
theorem add_grows_by_one_witness :
    (Aggregate.add ⟨"Herb", []⟩ ⟨"W", "7"⟩ ⟨⟨10, 10, 0⟩, "A"⟩ =
      some ⟨"Herb", [⟨⟨"W", "7"⟩, [⟨⟨10, 10, 0⟩, "A"⟩]⟩]⟩) ∧
    (totalEntries ⟨"Herb", [⟨⟨"W", "7"⟩, [⟨⟨10, 10, 0⟩, "A"⟩]⟩]⟩ =
        totalEntries ⟨"Herb", []⟩ + 1 ∧
      ((∀ gz ∈ (⟨"Herb", []⟩ : Aggregate).zones, gz.entries ≠ []) →
        ∀ gz ∈ (⟨"Herb", [⟨⟨"W", "7"⟩, [⟨⟨10, 10, 0⟩, "A"⟩]⟩]⟩ : Aggregate).zones,
          gz.entries ≠ [])) :=
  ⟨by decide, add_grows_by_one ⟨"Herb", []⟩ ⟨"W", "7"⟩ ⟨⟨10, 10, 0⟩, "A"⟩
    ⟨"Herb", [⟨⟨"W", "7"⟩, [⟨⟨10, 10, 0⟩, "A"⟩]⟩]⟩ (by decide)⟩

/-! ### Claim C10: the frame of `add` -/

/-- A coordinate cache state reachable during aggregation: either not
yet computed (`0`) or strictly above the position's encoded key. -/
def coordAdmissible (c : Coordinate) : Prop :=
  c.coord = 0 ∨ encKey c.x c.y < c.coord

/-- The collision bump keeps a coordinate admissible and does not
touch `x` or `y`. -/
theorem coordAdmissible_bump (c : Coordinate) (h : coordAdmissible c) :
    coordAdmissible (bumpCoord c) := by
  simp only [coordAdmissible, bumpCoord, asG_snd] at h ⊢
  split <;> omega

/-- What a successful collision loop guarantees: the returned
coordinate is not among the existing ones, has the same position as
the candidate, and is admissible whenever the candidate was. -/
theorem probeLoop_sound (existing : List Coordinate) :
    ∀ (fuel : Nat) (c c' : Coordinate), probeLoop fuel c existing = some c' →
      c' ∉ existing ∧ c'.x = c.x ∧ c'.y = c.y ∧
        (coordAdmissible c → coordAdmissible c') := by
  intro fuel
  induction fuel with
  | zero => intro c c' h; exact absurd h (by simp [probeLoop])
  | succ n ih =>
    intro c c' h
    rw [probeLoop] at h
    by_cases hm : c ∈ existing
    · rw [if_pos hm] at h
      obtain ⟨h1, h2, h3, h4⟩ := ih (bumpCoord c) c' h
      exact ⟨h1, h2, h3, fun ha => h4 (coordAdmissible_bump c ha)⟩
    · rw [if_neg hm] at h
      simp only [Option.some.injEq] at h
      subst h
      exact ⟨hm, rfl, rfl, fun ha => ha⟩

/-- `addEntry` either appends a brand-new one-entry bucket (when no
bucket has the zone) or appends one entry — the given entry with at
most its `coord` cache changed — to the first bucket with that zone,
leaving every other bucket untouched. -/
theorem addEntry_frame (z : Zone) (e : GathererEntry) :
    ∀ (zs zs' : List GathererZone), addEntry zs z e = some zs' →
      (zs' = zs ++ [⟨z, [e]⟩] ∧ ∀ gz ∈ zs, gz.zone ≠ z) ∨
      (∃ l1 gz l2 c', zs = l1 ++ gz :: l2 ∧ gz.zone = z ∧
        (∀ gz' ∈ l1, gz'.zone ≠ z) ∧
        c'.x = e.coordinate.x ∧ c'.y = e.coordinate.y ∧
        zs' = l1 ++ ⟨gz.zone, gz.entries ++ [⟨c', e.entry_id⟩]⟩ :: l2) := by
  intro zs
  induction zs with
  | nil =>
    intro zs' h
    simp only [addEntry, Option.some.injEq] at h
    subst h
    exact Or.inl ⟨by simp, by simp⟩
  | cons gz rest ih =>
    intro zs' h
    by_cases hz : gz.zone = z
    · rw [addEntry, if_pos hz] at h
      cases hp : probeLoop (gz.entries.length + 2) e.coordinate
          (gz.entries.map fun e => e.coordinate) with
      | none => rw [hp] at h; exact absurd h (by simp)
      | some c =>
        rw [hp] at h
        simp only [Option.some.injEq] at h
        subst h
        obtain ⟨_, hx, hy, _⟩ := probeLoop_sound _ _ _ _ hp
        exact Or.inr ⟨[], gz, rest, c, by simp, hz, by simp, hx, hy, by simp⟩
    · rw [addEntry, if_neg hz] at h
      cases hrec : addEntry rest z e with
      | none => rw [hrec] at h; exact absurd h (by simp)
      | some zs'' =>
        rw [hrec] at h
        simp only [Option.map_some', Option.some.injEq] at h
        subst h
        rcases ih zs'' hrec with ⟨heq, hall⟩ | ⟨l1, gzf, l2, c', heq, hzf, hall, hx, hy, hout⟩
        · refine Or.inl ⟨by simp [heq], ?_⟩
          intro g hg
          rcases List.mem_cons.mp hg with hg | hg
          · subst hg; exact hz
          · exact hall g hg
        · refine Or.inr ⟨gz :: l1, gzf, l2, c', by simp [heq], hzf, ?_, hx, hy, by simp [hout]⟩
          intro g hg
          rcases List.mem_cons.mp hg with hg | hg
          · subst hg; exact hz
          · exact hall g hg

/-- Claim C10: a successful `add` mutates at most the `coord` field of
the entry being added.  The category label is unchanged; either a new
one-entry bucket is appended (the entry stored verbatim) when no
bucket had the zone, or the first bucket with the zone gets one entry
appended whose position and identifier are those of the given entry —
and in both cases every pre-existing bucket, its zone, its entries and
their coordinates appear unchanged in the result. -/
theorem add_frame (a : Aggregate) (z : Zone) (e : GathererEntry)
    (a' : Aggregate) (h : a.add z e = some a') :
    a'.type = a.type ∧
    ((a'.zones = a.zones ++ [⟨z, [e]⟩] ∧ ∀ gz ∈ a.zones, gz.zone ≠ z) ∨
      (∃ l1 gz l2 c', a.zones = l1 ++ gz :: l2 ∧ gz.zone = z ∧
        (∀ gz' ∈ l1, gz'.zone ≠ z) ∧
        c'.x = e.coordinate.x ∧ c'.y = e.coordinate.y ∧
        a'.zones = l1 ++ ⟨gz.zone, gz.entries ++ [⟨c', e.entry_id⟩]⟩ :: l2)) := by
  unfold Aggregate.add at h
  cases hE : addEntry a.zones z e with
  | none => rw [hE] at h; exact absurd h (by simp)
  | some zs' =>
    rw [hE] at h
    simp only [Option.map_some', Option.some.injEq] at h
    subst h
    exact ⟨rfl, addEntry_frame z e a.zones zs' hE⟩

/-- Witness for the claim-C10 theorem: one add into an aggregate that
already holds one bucket of a different zone. -/
theorem add_frame_witness :
    (Aggregate.add ⟨"Herb", [⟨⟨"V", "4"⟩, [⟨⟨50, 50, 0⟩, "D"⟩]⟩]⟩ ⟨"W", "7"⟩
        ⟨⟨10, 10, 0⟩, "A"⟩ =
      some ⟨"Herb", [⟨⟨"V", "4"⟩, [⟨⟨50, 50, 0⟩, "D"⟩]⟩,
        ⟨⟨"W", "7"⟩, [⟨⟨10, 10, 0⟩, "A"⟩]⟩]⟩) ∧
    ((⟨"Herb", [⟨⟨"V", "4"⟩, [⟨⟨50, 50, 0⟩, "D"⟩]⟩,
        ⟨⟨"W", "7"⟩, [⟨⟨10, 10, 0⟩, "A"⟩]⟩]⟩ : Aggregate).type =
        (⟨"Herb", [⟨⟨"V", "4"⟩, [⟨⟨50, 50, 0⟩, "D"⟩]⟩]⟩ : Aggregate).type ∧
      (((⟨"Herb", [⟨⟨"V", "4"⟩, [⟨⟨50, 50, 0⟩, "D"⟩]⟩,
          ⟨⟨"W", "7"⟩, [⟨⟨10, 10, 0⟩, "A"⟩]⟩]⟩ : Aggregate).zones =
            (⟨"Herb", [⟨⟨"V", "4"⟩, [⟨⟨50, 50, 0⟩, "D"⟩]⟩]⟩ : Aggregate).zones ++
              [⟨⟨"W", "7"⟩, [⟨⟨10, 10, 0⟩, "A"⟩]⟩] ∧
          ∀ gz ∈ (⟨"Herb", [⟨⟨"V", "4"⟩, [⟨⟨50, 50, 0⟩, "D"⟩]⟩]⟩ : Aggregate).zones,
            gz.zone ≠ ⟨"W", "7"⟩) ∨
        (∃ l1 gz l2 c',
          (⟨"Herb", [⟨⟨"V", "4"⟩, [⟨⟨50, 50, 0⟩, "D"⟩]⟩]⟩ : Aggregate).zones =
            l1 ++ gz :: l2 ∧ gz.zone = ⟨"W", "7"⟩ ∧
          (∀ gz' ∈ l1, gz'.zone ≠ ⟨"W", "7"⟩) ∧
          c'.x = (⟨⟨10, 10, 0⟩, "A"⟩ : GathererEntry).coordinate.x ∧
          c'.y = (⟨⟨10, 10, 0⟩, "A"⟩ : GathererEntry).coordinate.y ∧
          (⟨"Herb", [⟨⟨"V", "4"⟩, [⟨⟨50, 50, 0⟩, "D"⟩]⟩,
            ⟨⟨"W", "7"⟩, [⟨⟨10, 10, 0⟩, "A"⟩]⟩]⟩ : Aggregate).zones =
              l1 ++ ⟨gz.zone, gz.entries ++ [⟨c', "A"⟩]⟩ :: l2))) :=
  ⟨by decide,
    add_frame ⟨"Herb", [⟨⟨"V", "4"⟩, [⟨⟨50, 50, 0⟩, "D"⟩]⟩]⟩ ⟨"W", "7"⟩
      ⟨⟨10, 10, 0⟩, "A"⟩
      ⟨"Herb", [⟨⟨"V", "4"⟩, [⟨⟨50, 50, 0⟩, "D"⟩]⟩,
        ⟨⟨"W", "7"⟩, [⟨⟨10, 10, 0⟩, "A"⟩]⟩]⟩ (by decide)⟩

/-! ### Claim C2: key uniqueness inside a bucket -/

/-- Invariant of a zone bucket during aggregation: the coordinate
records are pairwise distinct (this is exactly what the collision
check compares) and every coordinate is admissible. -/
def bucketOk (gz : GathererZone) : Prop :=
  ((gz.entries.map fun e => e.coordinate).Pairwise (fun c1 c2 => c1 ≠ c2)) ∧
  ∀ e ∈ gz.entries, coordAdmissible e.coordinate

/-- `addEntry` preserves the bucket invariant when the entry enters
with an unset cache (`coord = 0`), as every scraped record does. -/
theorem addEntry_ok (z : Zone) (e : GathererEntry)
    (he : e.coordinate.coord = 0) :
    ∀ (zs zs' : List GathererZone), (∀ gz ∈ zs, bucketOk gz) →
      addEntry zs z e = some zs' → ∀ gz ∈ zs', bucketOk gz := by
  intro zs
  induction zs with
  | nil =>
    intro zs' hok h
    simp only [addEntry, Option.some.injEq] at h
    subst h
    intro gz hgz
    rcases List.mem_singleton.mp hgz with rfl
    exact ⟨by simp, by simp [coordAdmissible, he]⟩
  | cons gz rest ih =>
    intro zs' hok h
    by_cases hz : gz.zone = z
    · rw [addEntry, if_pos hz] at h
      cases hp : probeLoop (gz.entries.length + 2) e.coordinate
          (gz.entries.map fun x => x.coordinate) with
      | none => rw [hp] at h; exact absurd h (by simp)
      | some c =>
        rw [hp] at h
        simp only [Option.some.injEq] at h
        subst h
        obtain ⟨hnot, _, _, hadm⟩ := probeLoop_sound _ _ _ _ hp
        have hgzok := hok gz (List.mem_cons_self _ _)
        intro g hg
        rcases List.mem_cons.mp hg with rfl | hg
        · constructor
          · simp only [List.map_append, List.map_cons, List.map_nil]
            rw [List.pairwise_append]
            refine ⟨hgzok.1, by simp, ?_⟩
            intro a ha b hb
            rcases List.mem_singleton.mp hb with rfl
            intro hab
            exact hnot (hab ▸ ha)
          · intro e' he'
            rcases List.mem_append.mp he' with he' | he'
            · exact hgzok.2 e' he'
            · rcases List.mem_singleton.mp he' with rfl
              exact hadm (Or.inl he)
        · exact hok g (List.mem_cons_of_mem _ hg)
    · rw [addEntry, if_neg hz] at h
      cases hrec : addEntry rest z e with
      | none => rw [hrec] at h; exact absurd h (by simp)
      | some zs'' =>
        rw [hrec] at h
        simp only [Option.map_some', Option.some.injEq] at h
        subst h
        intro g hg
        rcases List.mem_cons.mp hg with rfl | hg
        · exact hok g (List.mem_cons_self _ _)
        · exact ih zs'' (fun g' hg' => hok g' (List.mem_cons_of_mem _ hg')) hrec g hg

/-- A whole aggregation run preserves the bucket invariant, provided
all records enter with unset caches. -/
theorem addAll_ok :
    ∀ (recs : List (Zone × GathererEntry)) (a a' : Aggregate),
      (∀ gz ∈ a.zones, bucketOk gz) →
      (∀ r ∈ recs, r.2.coordinate.coord = 0) →
      addAll a recs = some a' → ∀ gz ∈ a'.zones, bucketOk gz := by
  intro recs
  induction recs with
  | nil =>
    intro a a' hok _ h
    simp only [addAll, Option.some.injEq] at h
    subst h
    exact hok
  | cons r rest ih =>
    intro a a' hok hfresh h
    obtain ⟨z, e⟩ := r
    rw [addAll] at h
    cases hadd : a.add z e with
    | none => rw [hadd] at h; exact absurd h (by simp)
    | some a1 =>
      rw [hadd] at h
      have h1 : ∀ gz ∈ a1.zones, bucketOk gz := by
        unfold Aggregate.add at hadd
        cases hE : addEntry a.zones z e with
        | none => rw [hE] at hadd; exact absurd hadd (by simp)
        | some zs' =>
          rw [hE] at hadd
          simp only [Option.map_some', Option.some.injEq] at hadd
          subst hadd
          exact addEntry_ok z e (hfresh (z, e) (List.mem_cons_self _ _)) a.zones zs' hok hE
      exact ih a1 a' h1 (fun r' hr' => hfresh r' (List.mem_cons_of_mem _ hr')) h

/-- Strengthening a pairwise relation using membership information. -/
theorem pairwise_strengthen {α : Type} {r s : α → α → Prop} :
    ∀ {l : List α}, l.Pairwise r →
      (∀ a ∈ l, ∀ b ∈ l, r a b → s a b) → l.Pairwise s := by
  intro l hp
  induction hp with
  | nil => intro _; exact List.Pairwise.nil
  | @cons a l' hhead _ ih =>
    intro hs
    constructor
    · intro b hb
      exact hs a (List.mem_cons_self _ _) b (List.mem_cons_of_mem _ hb) (hhead b hb)
    · exact ih fun x hx y hy hr =>
        hs x (List.mem_cons_of_mem _ hx) y (List.mem_cons_of_mem _ hy) hr

/-- Two distinct admissible coordinates at the same position read
distinct keys. -/
theorem keyOf_ne_of_admissible (c1 c2 : Coordinate)
    (h1 : coordAdmissible c1) (h2 : coordAdmissible c2)
    (hx : c1.x = c2.x) (hy : c1.y = c2.y) (hne : c1 ≠ c2) :
    keyOf c1 ≠ keyOf c2 := by
  have hcc : c1.coord ≠ c2.coord := by
    intro hc
    apply hne
    cases c1; cases c2
    simp_all
  rw [keyOf_eq, keyOf_eq, hx, hy]
  rcases h1 with h1 | h1 <;> rcases h2 with h2 | h2
  · exact absurd (h1.trans h2.symm) hcc
  · split_ifs <;> omega
  · rw [hx, hy] at h1
    split_ifs <;> omega
  · rw [hx, hy] at h1
    split_ifs <;> omega

/-- Claim C2 (amended): in every aggregate built by a sequence of
`add` calls on freshly scraped records (coordinate caches unset), no
two entries of a zone bucket that share the same `(x, y)` position
read the same integer key.  (Entries at distinct positions whose
encodings coincide can share a key: the collision check compares whole
coordinate records, not keys.) -/
theorem bucket_keys_unique_per_position (t : String)
    (recs : List (Zone × GathererEntry))
    (hfresh : ∀ r ∈ recs, r.2.coordinate.coord = 0) (a' : Aggregate)
    (h : addAll ⟨t, []⟩ recs = some a') :
    ∀ gz ∈ a'.zones, gz.entries.Pairwise (fun e1 e2 =>
      e1.coordinate.x = e2.coordinate.x → e1.coordinate.y = e2.coordinate.y →
      keyOf e1.coordinate ≠ keyOf e2.coordinate) := by
  intro gz hgz
  obtain ⟨hpw, hadm⟩ := addAll_ok recs ⟨t, []⟩ a' (by simp) hfresh h gz hgz
  have hpw' : gz.entries.Pairwise
      (fun e1 e2 => e1.coordinate ≠ e2.coordinate) :=
    List.pairwise_map.mp hpw
  exact pairwise_strengthen hpw' fun e1 h1 e2 h2 hne hx hy =>
    keyOf_ne_of_admissible _ _ (hadm _ h1) (hadm _ h2) hx hy hne

/-- Witness for the claim-C2 theorem: a one-record run. -/
theorem bucket_keys_unique_per_position_witness :
    (∀ r ∈ [((⟨"W", "7"⟩ : Zone), (⟨⟨10, 10, 0⟩, "A"⟩ : GathererEntry))],
      r.2.coordinate.coord = 0) ∧
    ∀ gz ∈ (⟨"Herb", [⟨⟨"W", "7"⟩, [⟨⟨10, 10, 0⟩, "A"⟩]⟩]⟩ : Aggregate).zones,
      gz.entries.Pairwise (fun e1 e2 =>
        e1.coordinate.x = e2.coordinate.x → e1.coordinate.y = e2.coordinate.y →
        keyOf e1.coordinate ≠ keyOf e2.coordinate) :=
  ⟨by decide,
    bucket_keys_unique_per_position "Herb"
      [((⟨"W", "7"⟩ : Zone), (⟨⟨10, 10, 0⟩, "A"⟩ : GathererEntry))] (by decide)
      ⟨"Herb", [⟨⟨"W", "7"⟩, [⟨⟨10, 10, 0⟩, "A"⟩]⟩]⟩ (by decide)⟩

/-! ### A concrete key collision between two distinct positions

The positions `(10, 10)` and `(2561/256, 10)` (the float
`10.00390625`, exactly representable) are distinct but encode to the
same key `1000100000`.  The collision check of `Aggregate.add`
compares whole coordinate records, so neither entry is bumped. -/

/-- Two records at distinct positions with colliding encodings. -/
def collisionRecords : List (Zone × GathererEntry) :=
  [(⟨"Z1", "5"⟩, ⟨⟨10, 10, 0⟩, "A"⟩), (⟨"Z1", "5"⟩, ⟨⟨2561/256, 10, 0⟩, "B"⟩)]

/-- The aggregate produced from `collisionRecords`. -/
def collisionAgg : Aggregate :=
  ⟨"Herb", [⟨⟨"Z1", "5"⟩, [⟨⟨10, 10, 0⟩, "A"⟩, ⟨⟨2561/256, 10, 0⟩, "B"⟩]⟩]⟩

theorem keyOf_coord_A : keyOf ⟨10, 10, 0⟩ = 1000100000 := by
  norm_num [keyOf, Coordinate.as_gatherer_coord, encKey]

theorem keyOf_coord_B : keyOf ⟨2561/256, 10, 0⟩ = 1000100000 := by
  norm_num [keyOf, Coordinate.as_gatherer_coord, encKey]

theorem collision_run :
    addAll ⟨"Herb", []⟩ collisionRecords = some collisionAgg := by
  norm_num [collisionRecords, collisionAgg, addAll, Aggregate.add, addEntry,
    probeLoop, Option.map, Coordinate.mk.injEq, Zone.mk.injEq, bumpCoord,
    Coordinate.as_gatherer_coord, encKey]

/-- Claim C2 (counterexample): the aggregator produces a zone bucket
whose two entries — at the distinct positions `(10, 10)` and
`(2561/256, 10)` — read the same key `1000100000`, so the bucket's key
list is not duplicate-free. -/
theorem distinct_positions_share_key :
    addAll ⟨"Herb", []⟩ collisionRecords = some collisionAgg ∧
    collisionAgg.zones.map (fun gz => gz.entries.map fun e => keyOf e.coordinate) =
      [[1000100000, 1000100000]] ∧
    ¬ ([(1000100000 : ℤ), 1000100000].Nodup) ∧
    (10 : ℚ) ≠ 2561/256 := by
  refine ⟨collision_run, ?_, by decide, by norm_num⟩
  simp [collisionAgg, keyOf_coord_A, keyOf_coord_B]

/-! ### Claim C4: the end-to-end scenario -/

/-- The scenario's input records: codes `A` and `B` at `(10, 10)` in
the zone with internal id `5`, code `C` at `(0, 0)` in the zone with
internal id `3`. -/
def scenarioRecords : List (Zone × GathererEntry) :=
  [(⟨"Z1", "5"⟩, ⟨⟨10, 10, 0⟩, "A"⟩),
   (⟨"Z1", "5"⟩, ⟨⟨10, 10, 0⟩, "B"⟩),
   (⟨"Z2", "3"⟩, ⟨⟨0, 0, 0⟩, "C"⟩)]

/-- The aggregate the scenario produces: `B`'s key was bumped to
`1000100001` by collision resolution. -/
def scenarioAgg : Aggregate :=
  ⟨"Herb", [⟨⟨"Z1", "5"⟩, [⟨⟨10, 10, 0⟩, "A"⟩, ⟨⟨10, 10, 1000100001⟩, "B"⟩]⟩,
            ⟨⟨"Z2", "3"⟩, [⟨⟨0, 0, 0⟩, "C"⟩]⟩]⟩

theorem scenario_run : addAll ⟨"Herb", []⟩ scenarioRecords = some scenarioAgg := by
  norm_num [scenarioRecords, scenarioAgg, addAll, Aggregate.add, addEntry, probeLoop,
    Option.map, Coordinate.mk.injEq, Zone.mk.injEq, bumpCoord,
    Coordinate.as_gatherer_coord, encKey]
  decide

theorem keyOf_coord_B_bumped : keyOf ⟨10, 10, 1000100001⟩ = 1000100001 := by
  norm_num [keyOf, Coordinate.as_gatherer_coord]

theorem keyOf_coord_C : keyOf ⟨0, 0, 0⟩ = 0 := by
  norm_num [keyOf, Coordinate.as_gatherer_coord, encKey]

/-- Claim C4 (amended): the scenario emits zone `3` before zone `5`
(numeric order) and, inside zone `5`, code `A` at key `1000100000`
before code `B` at key `1000100001` — the keys the formula actually
yields for `(10, 10)`, not the claimed `1000100010`/`1000100011`. -/
theorem scenario_emission :
    addAll ⟨"Herb", []⟩ scenarioRecords = some scenarioAgg ∧
    scenarioAgg.reprStr =
      "GatherMate2HerbDB = \x7b\n\t[3] = \x7b\n\t\t[0] = C,\n\t\x7d,\n\t[5] = \x7b\n\t\t[1000100000] = A,\n\t\t[1000100001] = B,\n\t\x7d,\n\x7d" := by
  refine ⟨scenario_run, ?_⟩
  have c1 : entryLe ⟨⟨10, 10, 0⟩, "A"⟩ ⟨⟨10, 10, 1000100001⟩, "B"⟩ := by
    simp [entryLe, keyOf_coord_A, keyOf_coord_B_bumped]
  have hz : scenarioAgg.zones.insertionSort zoneLe =
      [⟨⟨"Z2", "3"⟩, [⟨⟨0, 0, 0⟩, "C"⟩]⟩,
       ⟨⟨"Z1", "5"⟩, [⟨⟨10, 10, 0⟩, "A"⟩, ⟨⟨10, 10, 1000100001⟩, "B"⟩]⟩] := by
    decide
  simp only [Aggregate.reprStr, GathererZone.reprStr, GathererEntry.reprStr, hz,
    List.map, List.insertionSort, List.orderedInsert, String.join, List.foldl, c1,
    if_true, eq_self_iff_true, keyOf_coord_A, keyOf_coord_B_bumped, keyOf_coord_C,
    scenarioAgg]
  decide

/-- Claim C4 (counterexample): in the scenario the aggregator assigns
codes `A` and `B` the keys `1000100000` and `1000100001` — not the
keys `1000100010` and `1000100011` the claim states. -/
theorem scenario_claimed_keys_wrong :
    (addAll ⟨"Herb", []⟩ scenarioRecords).map
        (fun a => a.zones.map fun gz => gz.entries.map fun e => keyOf e.coordinate) =
      some [[1000100000, 1000100001], [0]] ∧
    (1000100000 : ℤ) ≠ 1000100010 ∧ (1000100001 : ℤ) ≠ 1000100011 := by
  refine ⟨?_, by decide, by decide⟩
  rw [scenario_run]
  simp [scenarioAgg, keyOf_coord_A, keyOf_coord_B_bumped, keyOf_coord_C]

/-! ### Claim C5: emission ordering -/

/-- Claim C5 (amended): in the serialized output of any aggregate,
zone buckets appear in strictly increasing numeric order of the zone
id — provided the numeric ids of the buckets are pairwise distinct, as
they are for the program's zone table — and within each bucket the
entries appear in non-decreasing (not necessarily strictly increasing)
order of their coordinate keys. -/
theorem emission_ordering (a : Aggregate)
    (hids : (a.zones.map fun gz => strToInt gz.zone.id).Nodup) :
    ((a.zones.insertionSort zoneLe).map fun gz => strToInt gz.zone.id).Pairwise
      (fun m n => m < n) ∧
    ∀ gz ∈ a.zones,
      ((gz.entries.insertionSort entryLe).map fun e => keyOf e.coordinate).Pairwise
        (fun m n => m ≤ n) := by
  constructor
  · have hsorted : (a.zones.insertionSort zoneLe).Pairwise zoneLe :=
      List.sorted_insertionSort zoneLe a.zones
    have hperm : List.Perm
        ((a.zones.insertionSort zoneLe).map (fun gz => strToInt gz.zone.id))
        (a.zones.map (fun gz => strToInt gz.zone.id)) :=
      (List.perm_insertionSort zoneLe a.zones).map _
    have hnodup :
        ((a.zones.insertionSort zoneLe).map (fun gz => strToInt gz.zone.id)).Nodup :=
      hperm.nodup_iff.mpr hids
    have hle :
        ((a.zones.insertionSort zoneLe).map (fun gz => strToInt gz.zone.id)).Pairwise
          (fun m n => m ≤ n) :=
      List.pairwise_map.mpr (hsorted.imp fun h => h)
    exact (hle.and hnodup).imp fun h => lt_of_le_of_ne h.1 h.2
  · intro gz _
    exact List.pairwise_map.mpr
      ((List.sorted_insertionSort entryLe gz.entries).imp fun h => h)

/-- Witness for the claim-C5 theorem at the scenario aggregate. -/
theorem emission_ordering_witness :
    (scenarioAgg.zones.map fun gz => strToInt gz.zone.id).Nodup ∧
    (((scenarioAgg.zones.insertionSort zoneLe).map fun gz =>
        strToInt gz.zone.id).Pairwise (fun m n => m < n) ∧
      ∀ gz ∈ scenarioAgg.zones,
        ((gz.entries.insertionSort entryLe).map fun e =>
          keyOf e.coordinate).Pairwise (fun m n => m ≤ n)) :=
  ⟨by decide, emission_ordering scenarioAgg (by decide)⟩

/-- Claim C5 (counterexample): the aggregate built from
`collisionRecords` serializes its single bucket with the key list
`[1000100000, 1000100000]`, which is not strictly increasing — the
entries tie on the key, so within-bucket order is only non-strict. -/
theorem sorted_keys_not_strict :
    addAll ⟨"Herb", []⟩ collisionRecords = some collisionAgg ∧
    (collisionAgg.zones.map fun gz =>
        (gz.entries.insertionSort entryLe).map fun e => keyOf e.coordinate) =
      [[1000100000, 1000100000]] ∧
    ¬ List.Pairwise (fun m n : ℤ => m < n) [(1000100000 : ℤ), 1000100000] := by
  refine ⟨collision_run, ?_, by decide⟩
  have c1 : entryLe ⟨⟨10, 10, 0⟩, "A"⟩ ⟨⟨2561/256, 10, 0⟩, "B"⟩ := by
    simp [entryLe, keyOf_coord_A, keyOf_coord_B]
  simp [collisionAgg, List.insertionSort, List.orderedInsert, c1,
    keyOf_coord_A, keyOf_coord_B]

/-! ### Claim C6: what happens when the collision band overflows

Adding `n` identical records at `(0, 0)` (encoded key `0`) assigns the
keys `0, 1, …, n-1` in order.  Once `n` exceeds `100`, the keys leave
the 100-slot band `[0, 99]` reserved for the nominal position — and
the aggregator keeps running. -/

/-- The zone used for the duplicate-flood run. -/
def dupZone : Zone := ⟨"D", "8"⟩

/-- One scraped record at `(0, 0)` with an unset cache. -/
def dupEntry : GathererEntry := ⟨⟨0, 0, 0⟩, "X"⟩

/-- The bucket after `n` duplicates: entry `i` carries the cache value
`i` (entry `0` still has the unset sentinel `0`, which reads as the
encoded key `0`). -/
def dupBucket (n : Nat) : List GathererEntry :=
  (List.range n).map fun (i : ℕ) => ⟨⟨0, 0, (i : ℤ)⟩, "X"⟩

theorem encKey_zero : encKey 0 0 = 0 := by
  norm_num [encKey]

theorem mem_dupCoords (j : ℤ) (n : Nat) :
    ((⟨0, 0, j⟩ : Coordinate) ∈ (dupBucket n).map fun e => e.coordinate) ↔
      0 ≤ j ∧ j < (n : ℤ) := by
  simp only [dupBucket, List.map_map, Function.comp, List.mem_map, List.mem_range,
    Coordinate.mk.injEq, true_and]
  constructor
  · rintro ⟨i, hi, hij⟩
    omega
  · intro hj
    exact ⟨j.toNat, by omega, by omega⟩

theorem probeLoop_dup (n : Nat) :
    ∀ (k j extra : Nat), 1 ≤ j → j + k = n →
      probeLoop (k + 1 + extra) ⟨0, 0, (j : ℤ)⟩
        ((dupBucket n).map fun e => e.coordinate) = some ⟨0, 0, (n : ℤ)⟩ := by
  intro k
  induction k with
  | zero =>
    intro j extra h1 h2
    have hj : j = n := by omega
    subst hj
    rw [show 0 + 1 + extra = extra + 1 by omega]
    rw [probeLoop]
    rw [if_neg (by rw [mem_dupCoords]; omega)]
  | succ k ih =>
    intro j extra h1 h2
    rw [show k + 1 + 1 + extra = (k + 1 + extra) + 1 by omega]
    rw [probeLoop]
    rw [if_pos (by rw [mem_dupCoords]; omega)]
    have hjne : ((j : ℤ)) ≠ 0 := by omega
    have hb : bumpCoord ⟨0, 0, (j : ℤ)⟩ = ⟨0, 0, ((j + 1 : Nat) : ℤ)⟩ := by
      simp only [bumpCoord, asG_snd, if_neg hjne]
      rw [Coordinate.mk.injEq]
      refine ⟨rfl, rfl, by push_cast; ring⟩
    rw [hb]
    exact ih (j + 1) extra (by omega) (by omega)

theorem add_dup (n : Nat) (h : 1 ≤ n) :
    Aggregate.add ⟨"Herb", [⟨dupZone, dupBucket n⟩]⟩ dupZone dupEntry =
      some ⟨"Herb", [⟨dupZone, dupBucket (n + 1)⟩]⟩ := by
  have hlen : (dupBucket n).length = n := by simp [dupBucket]
  have hp : probeLoop (n + 2) (⟨0, 0, 0⟩ : Coordinate)
      ((dupBucket n).map fun e => e.coordinate) = some ⟨0, 0, (n : ℤ)⟩ := by
    rw [show n + 2 = ((n - 1) + 1 + 1) + 1 by omega]
    rw [probeLoop]
    rw [if_pos ((mem_dupCoords 0 n).mpr (by omega))]
    have hb : bumpCoord ⟨0, 0, 0⟩ = ⟨0, 0, ((1 : Nat) : ℤ)⟩ := by
      simp [bumpCoord, asG_snd, encKey_zero]
    rw [hb]
    exact probeLoop_dup n (n - 1) 1 1 (le_refl 1) (by omega)
  have happ : dupBucket n ++ [⟨⟨0, 0, (n : ℤ)⟩, "X"⟩] = dupBucket (n + 1) := by
    simp [dupBucket, List.range_succ]
  simp only [Aggregate.add, addEntry, dupEntry, hlen, hp, happ,
    eq_self_iff_true, if_true, Option.map_some']

theorem addAll_dup (m : Nat) :
    ∀ n : Nat, 1 ≤ n →
      addAll ⟨"Herb", [⟨dupZone, dupBucket n⟩]⟩
          (List.replicate m (dupZone, dupEntry)) =
        some ⟨"Herb", [⟨dupZone, dupBucket (n + m)⟩]⟩ := by
  induction m with
  | zero => intro n h; simp [addAll]
  | succ m ih =>
    intro n h
    rw [List.replicate_succ]
    simp only [addAll]
    rw [add_dup n h]
    have hm := ih (n + 1) (by omega)
    rw [show n + 1 + m = n + (m + 1) by omega] at hm
    exact hm

theorem exhaustion_run (n : Nat) (h : 1 ≤ n) :
    addAll ⟨"Herb", []⟩ (List.replicate n (dupZone, dupEntry)) =
      some ⟨"Herb", [⟨dupZone, dupBucket n⟩]⟩ := by
  obtain ⟨m, rfl⟩ : ∃ m, n = m + 1 := ⟨n - 1, by omega⟩
  rw [List.replicate_succ]
  simp only [addAll]
  have hfirst : Aggregate.add ⟨"Herb", []⟩ dupZone dupEntry =
      some ⟨"Herb", [⟨dupZone, dupBucket 1⟩]⟩ := by
    simp [Aggregate.add, addEntry, dupEntry, dupBucket, List.range_succ]
  rw [hfirst]
  have hm := addAll_dup m 1 (le_refl 1)
  rw [show 1 + m = m + 1 by omega] at hm
  exact hm

theorem dupBucket_keys (n : Nat) :
    (dupBucket n).map (fun e => keyOf e.coordinate) =
      (List.range n).map (fun (i : ℕ) => (i : ℤ)) := by
  simp only [dupBucket, List.map_map]
  apply List.map_congr_left
  intro i _
  rcases Nat.eq_zero_or_pos i with rfl | hi
  · simp [keyOf, Coordinate.as_gatherer_coord, encKey_zero]
  · have hne : ((i : ℤ)) ≠ 0 := by omega
    simp [keyOf, Coordinate.as_gatherer_coord, hne]

/-- Claim C6 (counterexample): flooding one nominal position `(0, 0)`
with 101 identical records exhausts the 100-slot band `[0, 99]`, and
the aggregator does not halt with an error: the run succeeds and the
101st entry is assigned key `100`, outside the reserved band. -/
theorem band_exhaustion_not_fatal :
    addAll ⟨"Herb", []⟩ (List.replicate 101 (dupZone, dupEntry)) =
      some ⟨"Herb", [⟨dupZone, dupBucket 101⟩]⟩ ∧
    (dupBucket 101).map (fun e => keyOf e.coordinate) =
      (List.range 101).map (fun (i : ℕ) => (i : ℤ)) ∧
    (100 : ℤ) ∈ (dupBucket 101).map (fun e => keyOf e.coordinate) ∧
    ¬ ((100 : ℤ) ≤ encKey 0 0 + 99) := by
  refine ⟨exhaustion_run 101 (by omega), dupBucket_keys 101, ?_, ?_⟩
  · rw [dupBucket_keys]
    simp only [List.mem_map, List.mem_range]
    exact ⟨100, by omega, rfl⟩
  · rw [encKey_zero]
    omega

/-- Claim C6 (amended): if more than 100 entries probe from the same
nominal key, the aggregator does not halt with a fatal error — it
keeps probing sequentially past the reserved band: for every `n ≥ 1`,
a flood of `n` identical records at `(0, 0)` completes successfully
with all `n` entries present at the consecutive keys `0, …, n-1`,
walking out of the band `[0, 99]` as soon as `n > 100`. -/
theorem band_exhaustion_probes_past (n : Nat) (h : 1 ≤ n) :
    addAll ⟨"Herb", []⟩ (List.replicate n (dupZone, dupEntry)) =
      some ⟨"Herb", [⟨dupZone, dupBucket n⟩]⟩ ∧
    (dupBucket n).map (fun e => keyOf e.coordinate) =
      (List.range n).map (fun (i : ℕ) => (i : ℤ)) :=
  ⟨exhaustion_run n h, dupBucket_keys n⟩

/-- Witness for the amended claim-C6 theorem at `n = 101`. -/
theorem band_exhaustion_probes_past_witness :
    1 ≤ 101 ∧
    (addAll ⟨"Herb", []⟩ (List.replicate 101 (dupZone, dupEntry)) =
        some ⟨"Herb", [⟨dupZone, dupBucket 101⟩]⟩ ∧
      (dupBucket 101).map (fun e => keyOf e.coordinate) =
        (List.range 101).map (fun (i : ℕ) => (i : ℤ))) :=
  ⟨by decide, band_exhaustion_probes_past 101 (by decide)⟩
